import Mathlib

/-!
Verification development for the "Six Degrees of Hollywood" program
(`load_imdb.py` and `main.py`).

The development shallowly embeds the program's data model and operations:

* the Python numeric conversions `int(...)`, `float(...)` and `str.isdigit`
  used by the loaders (modelled on ASCII inputs, which is the character
  range the IMDb TSV identifiers and numeric fields use);
* the four loader functions `make_movies`, `make_ratings`, `make_people`,
  `make_stars`, which turn raw TSV rows into table rows, skipping or
  aborting exactly where the Python code does;
* the SQL statements of `clean_data` (with PostgreSQL three-valued logic
  for `NULL` comparisons, `ON DELETE CASCADE` propagation, and
  column-name resolution of the one query that references a column that
  does not exist);
* the breadth-first search of `solve` together with `find_contacts`, and
  the name lookup of `check_name` together with `get_most_famous`.

Machine integers in the Python source are unbounded, so `Int`/`Nat` model
them exactly.  Fallible code is modelled with `Except String`.
-/

/-! ## Python character classes (ASCII scope) -/

/-- ASCII whitespace as stripped by Python's `int(...)`, `float(...)` and
`str.strip()` (space, tab, newline, carriage return, vertical tab, form
feed). -/
def pyWs (c : Char) : Bool :=
  c = ' ' || c = '\t' || c = '\n' || c = '\x0d' || c = '\x0b' || c = '\x0c'

/-- Strip leading and trailing ASCII whitespace from a character list
(model of `str.strip()` and of the stripping done by `int`/`float`). -/
def pyStripL (l : List Char) : List Char :=
  ((l.dropWhile pyWs).reverse.dropWhile pyWs).reverse

/-- Model of Python `str.strip()` on strings. -/
def pyStrip (s : String) : String :=
  ⟨pyStripL s.data⟩

/-- Numeric value of a list of ASCII digits (most significant first). -/
def natOfDigits (l : List Char) : Nat :=
  l.foldl (fun n c => 10 * n + (c.toNat - 48)) 0

/-- Model of Python `str.isdigit()` on ASCII strings: nonempty and every
character is a decimal digit. -/
def pyIsdigit (s : String) : Bool :=
  !s.data.isEmpty && s.data.all Char.isDigit

/-! ## Python `int(...)` -/

/-- State machine for the digit part of a Python numeric literal after
its first digit: single underscores may appear only between two digits.
The flag records whether the previous character was an underscore. -/
def duGo (afterUnderscore : Bool) : List Char → Bool
  | [] => !afterUnderscore
  | c :: cs =>
    if c = '_' then !afterUnderscore && duGo true cs
    else c.isDigit && duGo false cs

/-- Recogniser for the digit part of a Python numeric literal: a nonempty
run of decimal digits in which single underscores may appear between two
digits. -/
def digitRun : List Char → Bool
  | [] => false
  | c :: cs => c.isDigit && duGo false cs

/-- Strip one optional leading sign character. Returns the sign
(`true` = negative) and the remainder. -/
def stripSign (l : List Char) : Bool × List Char :=
  match l with
  | [] => (false, [])
  | c :: cs =>
    if c = '+' then (false, cs)
    else if c = '-' then (true, cs)
    else (false, c :: cs)

/-- Domain of Python `int(str)` (ASCII scope): optional surrounding
whitespace, optional sign, then a nonempty underscore-separated digit
run. -/
def pyIntValid (l : List Char) : Bool :=
  digitRun (stripSign (pyStripL l)).2

/-- Signed value computed by Python `int(str)` on a valid input:
underscores are ignored, the digits are read in base 10. -/
def pyIntVal (l : List Char) : Int :=
  let (neg, ds) := stripSign (pyStripL l)
  let n : Int := natOfDigits (ds.filter (fun c => c != '_'))
  if neg then -n else n

/-- Model of Python `int(str)`: the numeric value, or a `ValueError`. -/
def pyIntL (l : List Char) : Except String Int :=
  if pyIntValid l then .ok (pyIntVal l) else .error "ValueError: invalid literal for int with base 10"

/-- Conversion `int(...)` applied to a Lean `String`. -/
def pyInt (s : String) : Except String Int :=
  pyIntL s.data

/-! ## Python `float(...)` -/

/-- Value domain of Python `float(...)` as used for the `NUMERIC` ratings
column: a finite (exact) value, an infinity, or a NaN. -/
inductive PyFloat where
  | finite (q : Rat)
  | inf (neg : Bool)
  | nan
deriving DecidableEq, Repr

/-- After the integer part, recognise the optional fractional and
exponent parts of a float literal; `intPart` records whether the integer
part was nonempty. -/
def floatTail (intPart : Bool) (l : List Char) : Bool :=
  match l with
  | [] => intPart
  | '.' :: cs =>
    (match cs with
     | [] => intPart
     | 'e' :: es => intPart && digitRun (stripSign es).2
     | 'E' :: es => intPart && digitRun (stripSign es).2
     | _ =>
       -- nonempty fraction digits, then optional exponent
       (floatSplitExp cs))
  | 'e' :: es => intPart && digitRun (stripSign es).2
  | 'E' :: es => intPart && digitRun (stripSign es).2
  | _ => false
where
  /-- fraction digits followed by an optional exponent -/
  floatSplitExp (cs : List Char) : Bool :=
    match cs.span (fun c => c.isDigit || c = '_') with
    | (frac, []) => digitRun frac
    | (frac, 'e' :: es) => digitRun frac && digitRun (stripSign es).2
    | (frac, 'E' :: es) => digitRun frac && digitRun (stripSign es).2
    | _ => false

/-- Special float words accepted case-insensitively by Python
(`inf`, `infinity`, `nan`). -/
def floatWord (l : List Char) : Option PyFloat :=
  let low := l.map Char.toLower
  if low = "inf".data || low = "infinity".data then some (.inf false)
  else if low = "nan".data then some .nan
  else none

/-- Domain of Python `float(str)` (ASCII scope). -/
def pyFloatValid (l : List Char) : Bool :=
  let t := pyStripL l
  let (_, body) := stripSign t
  match floatWord body with
  | some _ => true
  | none =>
    match body.span (fun c => c.isDigit || c = '_') with
    | (ip, rest) =>
      if ip.isEmpty then floatTail false rest
      else digitRun ip && floatTail true rest

/-- Exact rational value of the decimal literal `ip.frac e ex`
(signs already handled by the caller): the mantissa digits scaled by ten
to the exponent minus the fraction length. -/
def ratOfParts (ip frac : List Char) (exNeg : Bool) (ex : List Char) : Rat :=
  let m : Rat := (natOfDigits ((ip ++ frac).filter (fun c => c ≠ '_')) : Int)
  let f : Nat := (frac.filter (fun c => c ≠ '_')).length
  let e : Nat := natOfDigits (ex.filter (fun c => c ≠ '_'))
  if exNeg then m / ((10 : Rat) ^ (e + f)) else m * (10 : Rat) ^ e / (10 : Rat) ^ f

/-- Split a valid numeric float body into integer part, fraction part and
exponent. -/
def splitFloatBody (body : List Char) : List Char × List Char × Bool × List Char :=
  let (ip, rest) := body.span (fun c => c.isDigit || c = '_')
  match rest with
  | '.' :: cs =>
    let (frac, rest2) := cs.span (fun c => c.isDigit || c = '_')
    (match rest2 with
     | 'e' :: es => let (n, ds) := stripSign es; (ip, frac, n, ds)
     | 'E' :: es => let (n, ds) := stripSign es; (ip, frac, n, ds)
     | _ => (ip, frac, false, []))
  | 'e' :: es => let (n, ds) := stripSign es; (ip, [], n, ds)
  | 'E' :: es => let (n, ds) := stripSign es; (ip, [], n, ds)
  | _ => (ip, [], false, [])

/-- Model of Python `float(str)`: an exact `PyFloat` value or a
`ValueError`. -/
def pyFloatL (l : List Char) : Except String PyFloat :=
  if pyFloatValid l then
    let t := pyStripL l
    let (neg, body) := stripSign t
    match floatWord body with
    | some (.inf _) => .ok (.inf neg)
    | some .nan => .ok .nan
    | some (.finite q) => .ok (.finite q)
    | none =>
      let (ip, frac, exNeg, ex) := splitFloatBody body
      let q := ratOfParts ip frac exNeg ex
      .ok (.finite (if neg then -q else q))
  else .error "ValueError: could not convert string to float"

/-- Conversion `float(...)` applied to a Lean `String`. -/
def pyFloat (s : String) : Except String PyFloat :=
  pyFloatL s.data

/-! ## IMDb identifier parsing

Every loader derives an id with the same two-step rule, e.g.
`int(row['tconst'][2:])` in `make_movies` and
`int(row['nconst'][2:])` / `int(row['tconst'][2:])` in `make_stars`:
drop the two-character prefix, then parse the rest as an integer. -/

/-- The shared id rule of all four loaders: strip the two-character
prefix and apply Python `int`. -/
def parseImdbId (s : String) : Except String Int :=
  pyIntL (s.data.drop 2)

/-! ### Character-class facts -/

theorem alpha_not_digit {c : Char} (h : c.isAlpha = true) : c.isDigit = false := by
  simp only [Char.isAlpha, Char.isUpper, Char.isLower, Char.isDigit, Char.le_def,
    Bool.or_eq_true, Bool.and_eq_true, decide_eq_true_eq, UInt32.le_def, BitVec.le_def] at *
  simp only [Bool.and_eq_false_iff, decide_eq_false_iff_not, UInt32.le_def, BitVec.le_def, not_le]
  norm_num at *
  omega

theorem digit_not_ws {c : Char} (h : c.isDigit = true) : pyWs c = false := by
  by_cases hw : pyWs c = false
  · exact hw
  · have hcs : pyWs c = true := by revert hw; cases pyWs c <;> simp
    simp only [pyWs, Bool.or_eq_true, decide_eq_true_eq] at hcs
    rcases hcs with ((((rfl | rfl) | rfl) | rfl) | rfl) | rfl <;> simp [Char.isDigit] at h

theorem alpha_not_ws {c : Char} (h : c.isAlpha = true) : pyWs c = false := by
  by_cases hw : pyWs c = false
  · exact hw
  · have hcs : pyWs c = true := by revert hw; cases pyWs c <;> simp
    simp only [pyWs, Bool.or_eq_true, decide_eq_true_eq] at hcs
    rcases hcs with ((((rfl | rfl) | rfl) | rfl) | rfl) | rfl <;>
      simp [Char.isAlpha, Char.isUpper, Char.isLower] at h

theorem alpha_ne {c d : Char} (h : c.isAlpha = true) (hd : d.isAlpha = false) : c ≠ d := by
  rintro rfl; rw [h] at hd; cases hd

/-! ### Strip / sign / digit-run lemmas -/

theorem dropWhile_eq_self_of_all {p : Char → Bool} {l : List Char}
    (h : ∀ c ∈ l, p c = false) : l.dropWhile p = l := by
  cases l with
  | nil => rfl
  | cons x xs => simp [List.dropWhile, h x (List.mem_cons_self _ _)]

theorem pyStripL_eq_self {l : List Char} (h : ∀ c ∈ l, pyWs c = false) :
    pyStripL l = l := by
  unfold pyStripL
  rw [dropWhile_eq_self_of_all h, dropWhile_eq_self_of_all, List.reverse_reverse]
  intro c hc
  exact h c (List.mem_reverse.mp hc)

theorem mem_dropWhile_of_mem {p : Char → Bool} {l : List Char} {a : Char}
    (ha : a ∈ l) (hp : p a = false) : a ∈ l.dropWhile p := by
  induction l with
  | nil => cases ha
  | cons x xs ih =>
    by_cases hx : p x = true
    · rw [List.dropWhile_cons_of_pos hx]
      rcases List.mem_cons.mp ha with rfl | h
      · rw [hx] at hp; cases hp
      · exact ih h
    · rw [List.dropWhile_cons_of_neg hx]
      exact ha

theorem mem_pyStripL_of_mem {l : List Char} {a : Char}
    (ha : a ∈ l) (hp : pyWs a = false) : a ∈ pyStripL l := by
  unfold pyStripL
  rw [List.mem_reverse]
  exact mem_dropWhile_of_mem (List.mem_reverse.mpr (mem_dropWhile_of_mem ha hp)) hp

theorem stripSign_of_head_digit {c : Char} {cs : List Char} (h : c.isDigit = true) :
    stripSign (c :: cs) = (false, c :: cs) := by
  have h1 : c ≠ '+' := by rintro rfl; simp [Char.isDigit] at h
  have h2 : c ≠ '-' := by rintro rfl; simp [Char.isDigit] at h
  simp [stripSign, h1, h2]

theorem mem_stripSign_snd {l : List Char} {a : Char}
    (ha : a ∈ l) (h1 : a ≠ '+') (h2 : a ≠ '-') : a ∈ (stripSign l).2 := by
  cases l with
  | nil => cases ha
  | cons x xs =>
    unfold stripSign
    by_cases hx : x = '+'
    · subst hx
      simp only [if_pos rfl]
      rcases List.mem_cons.mp ha with rfl | h
      · exact absurd rfl h1
      · exact h
    · by_cases hx2 : x = '-'
      · subst hx2
        simp only [if_neg hx, if_pos rfl]
        rcases List.mem_cons.mp ha with rfl | h
        · exact absurd rfl h2
        · exact h
      · simp only [if_neg hx, if_neg hx2]
        exact ha

theorem duGo_true_of_all_digits {l : List Char} (h : ∀ c ∈ l, c.isDigit = true) :
    duGo false l = true := by
  induction l with
  | nil => rfl
  | cons x xs ih =>
    have hx : x.isDigit = true := h x (List.mem_cons_self _ _)
    have hne : x ≠ '_' := by rintro rfl; simp [Char.isDigit] at hx
    simp only [duGo, if_neg hne, hx, Bool.true_and]
    exact ih fun c hc => h c (List.mem_cons_of_mem _ hc)

theorem digitRun_true_of_all_digits {l : List Char} (hne : l ≠ [])
    (h : ∀ c ∈ l, c.isDigit = true) : digitRun l = true := by
  cases l with
  | nil => exact absurd rfl hne
  | cons x xs =>
    simp only [digitRun, h x (List.mem_cons_self _ _), Bool.true_and]
    exact duGo_true_of_all_digits fun c hc => h c (List.mem_cons_of_mem _ hc)

theorem duGo_false_of_mem {l : List Char} {a : Char}
    (ha : a ∈ l) (hd : a.isDigit = false) (hu : a ≠ '_') :
    ∀ b, duGo b l = false := by
  induction l with
  | nil => cases ha
  | cons x xs ih =>
    intro b
    rcases List.mem_cons.mp ha with rfl | h
    · simp only [duGo, if_neg hu, hd, Bool.false_and]
    · unfold duGo
      by_cases hx : x = '_'
      · simp [hx, ih h true]
      · simp [hx, ih h false]

theorem digitRun_false_of_mem {l : List Char} {a : Char}
    (ha : a ∈ l) (hd : a.isDigit = false) (hu : a ≠ '_') :
    digitRun l = false := by
  cases l with
  | nil => rfl
  | cons x xs =>
    rcases List.mem_cons.mp ha with rfl | h
    · simp only [digitRun, hd, Bool.false_and]
    · simp only [digitRun, duGo_false_of_mem h hd hu false, Bool.and_false]

/-! ### `int(...)` on clean digit strings and on corrupt remainders -/

theorem pyIntL_digits {l : List Char} (hne : l ≠ [])
    (h : ∀ c ∈ l, c.isDigit = true) :
    pyIntL l = .ok ((natOfDigits l : Int)) := by
  have hstrip : pyStripL l = l := pyStripL_eq_self fun c hc => digit_not_ws (h c hc)
  have hsign : stripSign l = (false, l) := by
    cases l with
    | nil => exact absurd rfl hne
    | cons x xs => exact stripSign_of_head_digit (h x (List.mem_cons_self _ _))
  have hrun : digitRun l = true := digitRun_true_of_all_digits hne h
  have hfilter : l.filter (fun c => c != '_') = l := by
    rw [List.filter_eq_self]
    intro c hc
    have : c ≠ '_' := by
      rintro rfl; simpa using h '_' hc
    simpa [bne_iff_ne] using this
  rw [pyIntL, pyIntValid, hstrip, hsign]
  simp only [hrun, if_pos]
  rw [pyIntVal, hstrip, hsign]
  simp [hfilter]

/-- A remainder containing a character that can occur in no Python
integer literal (not a digit, underscore, sign, or whitespace) makes
`int(...)` raise. -/
theorem pyIntL_error_of_bad_char {l : List Char} {a : Char}
    (ha : a ∈ l) (hd : a.isDigit = false) (hu : a ≠ '_')
    (hp : a ≠ '+') (hm : a ≠ '-') (hw : pyWs a = false) :
    pyIntL l = .error "ValueError: invalid literal for int with base 10" := by
  have h1 : a ∈ pyStripL l := mem_pyStripL_of_mem ha hw
  have h2 : a ∈ (stripSign (pyStripL l)).2 := mem_stripSign_snd h1 hp hm
  have h3 : pyIntValid l = false := by
    rw [pyIntValid]
    exact digitRun_false_of_mem h2 hd hu
  rw [pyIntL, h3]
  simp

theorem pyIntL_error_of_alpha {l : List Char} {a : Char}
    (ha : a ∈ l) (hal : a.isAlpha = true) :
    pyIntL l = .error "ValueError: invalid literal for int with base 10" :=
  pyIntL_error_of_bad_char ha (alpha_not_digit hal)
    (alpha_ne hal (by decide)) (alpha_ne hal (by decide)) (alpha_ne hal (by decide))
    (alpha_not_ws hal)

/-- C8. For every raw identifier consisting of a two-character prefix
followed by a decimal digit string, the id rule shared by all loaders
yields the integer value of the digit string (leading zeros removed);
for every identifier whose remainder after the prefix strip contains a
letter (hence is not numeric), the rule fails with the `ValueError` that
aborts the load. -/
theorem c8_id_parsing :
    (∀ pre ds : String, pre.length = 2 → ds.data ≠ [] →
        (∀ c ∈ ds.data, c.isDigit = true) →
        parseImdbId (pre ++ ds) = .ok ((natOfDigits ds.data : Int)))
    ∧ (∀ s : String, (∃ a ∈ s.data.drop 2, a.isAlpha = true) →
        parseImdbId s = .error "ValueError: invalid literal for int with base 10") := by
  constructor
  · intro pre ds hpre hne hd
    have hdata : (pre ++ ds).data = pre.data ++ ds.data := String.data_append pre ds
    have hlen : pre.data.length = 2 := hpre
    rw [parseImdbId, hdata, ← hlen, List.drop_left]
    exact pyIntL_digits hne hd
  · rintro s ⟨a, ha, hal⟩
    exact pyIntL_error_of_alpha ha hal

/-- Witness for C8 at concrete inputs: `"nm0012345"` parses to `12345`
and `"tt00x1"` aborts. -/
theorem c8_id_parsing_witness :
    parseImdbId ("nm" ++ "0012345") = .ok (12345 : Int)
    ∧ parseImdbId "tt00x1" = .error "ValueError: invalid literal for int with base 10" := by
  refine ⟨?_, ?_⟩
  · have := c8_id_parsing.1 "nm" "0012345" (by decide) (by decide) (by decide)
    rw [this, show natOfDigits "0012345".data = 12345 from by decide]
    rfl
  · exact c8_id_parsing.2 "tt00x1" ⟨'x', by decide, by decide⟩

/-! ## Data model: table rows and the store

Columns mirror the `CREATE TABLE` statements in `load_imdb.py`; nullable
columns are `Option`. -/

structure MovieRow where
  id : Int
  title : String
  year : Option Int
  title_type : Option String
  is_adult : Option Int
  runtime : Option Int
  genres : Option String
deriving DecidableEq, Repr

structure RatingRow where
  movie_id : Int
  average : Option PyFloat
  num_votes : Option Int
deriving DecidableEq, Repr

structure PersonRow where
  id : Int
  name : String
  birth : Option Int
  death : Option Int
  famous_movies : Option String
deriving DecidableEq, Repr

structure StarRow where
  person_id : Int
  movie_id : Int
  category : String
deriving DecidableEq, Repr

/-- The PostgreSQL store after loading. -/
structure DB where
  movies : List MovieRow
  ratings : List RatingRow
  people : List PersonRow
  stars : List StarRow
deriving DecidableEq, Repr

/-! ## Raw TSV rows (the fields each loader reads) -/

structure RawTitle where
  tconst : String
  primaryTitle : String
  startYear : String
  titleType : String
  isAdult : String
  runtimeMinutes : String
  genres : String
deriving DecidableEq, Repr

structure RawRating where
  tconst : String
  averageRating : String
  numVotes : String
deriving DecidableEq, Repr

structure RawName where
  nconst : String
  primaryName : String
  birthYear : String
  deathYear : String
  knownForTitles : String
deriving DecidableEq, Repr

structure RawPrincipal where
  tconst : String
  nconst : String
  category : String
deriving DecidableEq, Repr

/-! ## Field normalisation, as written in the loaders -/

/-- The `make_movies` pattern for `startYear`, `isAdult`, `runtimeMinutes`:
`int(row[...])` if `row[...].isdigit()` else `None`.  Total: a value that
is not a pure digit string silently becomes `None`. -/
def intFieldNorm (s : String) : Option Int :=
  if pyIsdigit s then some (pyIntVal s.data) else none

/-- The `make_movies` pattern for `titleType` and `genres`: `None` on the
`'\\N'` sentinel, else kept verbatim. -/
def textFieldNorm (s : String) : Option String :=
  if s = "\\N" then none else some s

/-- The `make_people` and `make_ratings` pattern for `birthYear`, `deathYear`
and `numVotes`: `None` on the sentinel, otherwise `int(row[...])`, whose
`ValueError` aborts the load. -/
def intOrNullNorm (s : String) : Except String (Option Int) :=
  if s = "\\N" then .ok none else (pyInt s).map some

/-- The `make_ratings` pattern for `averageRating`: `None` on the sentinel,
otherwise `float(row[...])`, whose `ValueError` aborts the load. -/
def averageNorm (s : String) : Except String (Option PyFloat) :=
  if s = "\\N" then .ok none else (pyFloat s).map some

/-! ## Loaders -/

/-- One row of `make_movies`' loop body. -/
def rowMovie (r : RawTitle) : Except String MovieRow := do
  let id ← parseImdbId r.tconst
  .ok { id := id, title := r.primaryTitle, year := intFieldNorm r.startYear,
        title_type := textFieldNorm r.titleType, is_adult := intFieldNorm r.isAdult,
        runtime := intFieldNorm r.runtimeMinutes, genres := textFieldNorm r.genres }

/-- The `make_movies` loop with the set of already-inserted primary keys:
inserting a duplicate id violates `movies_pkey` and aborts. -/
def mmGo (seen : List Int) : List RawTitle → Except String (List MovieRow)
  | [] => .ok []
  | r :: rs => do
    let m ← rowMovie r
    if m.id ∈ seen then .error "UniqueViolation: movies_pkey"
    else do
      let rest ← mmGo (m.id :: seen) rs
      .ok (m :: rest)

/-- Loader `make_movies`: builds the movies table from `movies.tsv` rows. -/
def make_movies (rows : List RawTitle) : Except String (List MovieRow) :=
  mmGo [] rows

/-- Loader `make_ratings`: builds the ratings table; rows whose movie id is not
in `movies` are skipped (with a console message) before the numeric
fields are converted. -/
def make_ratings (movies : List MovieRow) : List RawRating → Except String (List RatingRow)
  | [] => .ok []
  | r :: rs => do
    let mid ← parseImdbId r.tconst
    if movies.any (fun m => m.id == mid) then do
      let avg ← averageNorm r.averageRating
      let nv ← intOrNullNorm r.numVotes
      let rest ← make_ratings movies rs
      .ok ({ movie_id := mid, average := avg, num_votes := nv } :: rest)
    else
      make_ratings movies rs

/-- One row of `make_people`'s loop body. -/
def rowPerson (r : RawName) : Except String PersonRow := do
  let id ← parseImdbId r.nconst
  let birth ← intOrNullNorm r.birthYear
  let death ← intOrNullNorm r.deathYear
  .ok { id := id, name := r.primaryName, birth := birth, death := death,
        famous_movies := if r.knownForTitles = "\\N" then none else some r.knownForTitles }

/-- The `make_people` loop with the set of already-inserted primary keys. -/
def ppGo (seen : List Int) : List RawName → Except String (List PersonRow)
  | [] => .ok []
  | r :: rs => do
    let p ← rowPerson r
    if p.id ∈ seen then .error "UniqueViolation: people_pkey"
    else do
      let rest ← ppGo (p.id :: seen) rs
      .ok (p :: rest)

/-- Loader `make_people`: builds the people table from `names.tsv` rows. -/
def make_people (rows : List RawName) : Except String (List PersonRow) :=
  ppGo [] rows

/-- The `make_stars` loop: ids are parsed first (a hard failure on corrupt
ids), rows whose person or movie is absent are skipped, and the
`ON CONFLICT (person_id, movie_id) DO NOTHING` clause drops duplicate
pairs. -/
def ssGo (movies : List MovieRow) (people : List PersonRow)
    (seen : List (Int × Int)) : List RawPrincipal → Except String (List StarRow)
  | [] => .ok []
  | r :: rs => do
    let pid ← parseImdbId r.nconst
    let mid ← parseImdbId r.tconst
    if people.any (fun p => p.id == pid) then
      if movies.any (fun m => m.id == mid) then
        if (pid, mid) ∈ seen then ssGo movies people seen rs
        else do
          let rest ← ssGo movies people ((pid, mid) :: seen) rs
          .ok ({ person_id := pid, movie_id := mid, category := r.category } :: rest)
      else ssGo movies people seen rs
    else ssGo movies people seen rs

/-- Loader `make_stars`: builds the stars table from `stars.tsv` rows. -/
def make_stars (movies : List MovieRow) (people : List PersonRow)
    (rows : List RawPrincipal) : Except String (List StarRow) :=
  ssGo movies people [] rows

/-- The initial-load sequence of `__main__`: `make_movies`,
`make_ratings`, `make_people`, `make_stars` in that order. -/
def loadAll (rt : List RawTitle) (rr : List RawRating) (rn : List RawName)
    (rp : List RawPrincipal) : Except String DB := do
  let movies ← make_movies rt
  let ratings ← make_ratings movies rr
  let people ← make_people rn
  let stars ← make_stars movies people rp
  .ok { movies := movies, ratings := ratings, people := people, stars := stars }

/-! ## C2: numeric-field normalisation during load -/

/-- Counterexample to C2 as stated: the raw `startYear` value `"abc"` is
neither the `'\\N'` sentinel nor parseable as a number, yet `make_movies`
does not abort — it loads the row with `year = NULL`. -/
theorem c2_counterexample :
    make_movies [{ tconst := "tt0000001", primaryTitle := "T", startYear := "abc",
                   titleType := "movie", isAdult := "0", runtimeMinutes := "\\N",
                   genres := "Drama" }]
      = .ok [{ id := 1, title := "T", year := none, title_type := some "movie",
               is_adult := some 0, runtime := none, genres := some "Drama" }] := by
  rfl

/-- C2 (amended). Hard-error normalisation holds for the `people`
and `ratings` numeric columns (`birthYear`, `deathYear`, `numVotes` via
`int`, `averageRating` via `float`): a non-sentinel unparseable value
aborts the load.  The `movies` numeric columns (`startYear`, `isAdult`,
`runtimeMinutes`) instead go through the `isdigit()` test and silently
become `NULL` on any non-digit-string value; `rowMovie` can only fail on
its identifier. -/
theorem c2_numeric_normalization :
    (∀ s : String, pyIsdigit s = false → intFieldNorm s = none)
    ∧ (∀ s : String, s ≠ "\\N" → (∃ a ∈ s.data, a.isAlpha = true) →
        (intOrNullNorm s).isOk = false)
    ∧ (∀ s : String, s ≠ "\\N" → pyFloatValid s.data = false →
        (averageNorm s).isOk = false)
    ∧ (∀ r : RawTitle, (rowMovie r).isOk = (parseImdbId r.tconst).isOk) := by
  refine ⟨?_, ?_, ?_, ?_⟩
  · intro s h
    simp [intFieldNorm, h]
  · rintro s hs ⟨a, ha, hal⟩
    rw [intOrNullNorm, if_neg hs, pyInt, pyIntL_error_of_alpha ha hal]
    rfl
  · intro s hs hv
    rw [averageNorm, if_neg hs, pyFloat, pyFloatL, hv]
    simp only [Bool.false_eq_true, if_false]
    rfl
  · intro r
    rw [rowMovie]
    cases parseImdbId r.tconst <;> rfl

/-- Witness for C2 (amended) at concrete corrupt inputs. -/
theorem c2_numeric_normalization_witness :
    intFieldNorm "19xx" = none
    ∧ (intOrNullNorm "19xx").isOk = false
    ∧ (averageNorm "7..4").isOk = false := by
  refine ⟨?_, ?_, ?_⟩
  · exact c2_numeric_normalization.1 "19xx" (by decide)
  · exact c2_numeric_normalization.2.1 "19xx" (by decide) ⟨'x', by decide, by decide⟩
  · exact c2_numeric_normalization.2.2.1 "7..4" (by decide) (by decide)

/-! ## `clean_data`

Each `DELETE` is modelled with PostgreSQL semantics: a `NULL` operand
makes a comparison or `NOT IN` predicate non-true (the row is kept), and
deleting from `movies` (resp. `people`) cascades to the rows of
`ratings` and `stars` (resp. `stars`) that reference a deleted id, per
the `ON DELETE CASCADE` clauses of the schema. -/

/-- Delete the movies satisfying `pred`, cascading into `ratings` and
`stars`. -/
def deleteMoviesWhere (db : DB) (pred : MovieRow → Bool) : DB :=
  let dead := (db.movies.filter pred).map (fun m => m.id)
  { movies := db.movies.filter (fun m => !pred m),
    ratings := db.ratings.filter (fun r => !dead.contains r.movie_id),
    people := db.people,
    stars := db.stars.filter (fun s => !dead.contains s.movie_id) }

/-- Statement `DELETE FROM movies WHERE is_adult = 1` — a `NULL` `is_adult`
compares as unknown and is kept. -/
def cleanStep1 (db : DB) : DB :=
  deleteMoviesWhere db (fun m => m.is_adult == some 1)

/-- Title categories retained by the cleaning stage. -/
def allowedTypes : List String := ["movie", "short", "tvSeries", "tvMiniSeries"]

/-- Statement `DELETE FROM movies WHERE title_type NOT IN (...)` — for a `NULL`
`title_type` the `NOT IN` predicate is unknown, so the row is kept. -/
def cleanStep2 (db : DB) : DB :=
  deleteMoviesWhere db (fun m =>
    match m.title_type with
    | none => false
    | some t => !allowedTypes.contains t)

/-- Columns of `movies LEFT JOIN ratings ON id = movie_id`, against which
PostgreSQL resolves the column references of the vote-count `DELETE`. -/
def joinedCols : List String :=
  ["id", "title", "year", "title_type", "is_adult", "runtime", "genres",
   "movie_id", "average", "num_votes"]

/-- Column references appearing in the vote-count `DELETE` subquery:
`SELECT id ... WHERE num_ratings IS NULL OR num_ratings < 20`. -/
def voteDeleteRefs : List String := ["id", "num_ratings"]

/-- Resolve a query's column references against the available columns;
an unknown reference is an `UndefinedColumn` error, raised before any
row is examined. -/
def analyzeCols (refs cols : List String) : Except String Unit :=
  match refs.find? (fun r => !cols.contains r) with
  | some r => .error ("UndefinedColumn: column " ++ r ++ " does not exist")
  | none => .ok ()

/-- Integer-typed columns of one row of the
`movies LEFT JOIN ratings` frame (the only ones the vote-count predicate
could read); looking up any other name is an `UndefinedColumn` error. -/
def rowEnv (m : MovieRow) (r : Option RatingRow) (col : String) :
    Except String (Option Int) :=
  if col = "id" then .ok (some m.id)
  else if col = "year" then .ok m.year
  else if col = "is_adult" then .ok m.is_adult
  else if col = "runtime" then .ok m.runtime
  else if col = "movie_id" then .ok (r.map (fun x => x.movie_id))
  else if col = "num_votes" then .ok (r.bind (fun x => x.num_votes))
  else .error ("UndefinedColumn: column " ++ col ++ " does not exist")

/-- The join `movies LEFT JOIN ratings ON id = movie_id`. -/
def leftJoinMR (db : DB) : List (MovieRow × Option RatingRow) :=
  db.movies.flatMap (fun m =>
    match db.ratings.filter (fun r => r.movie_id == m.id) with
    | [] => [(m, none)]
    | rs => rs.map (fun r => (m, some r)))

/-- The `WHERE num_ratings IS NULL OR num_ratings < 20` predicate of the
vote-count `DELETE`, evaluated through the row environment. -/
def voteWhere (env : String → Except String (Option Int)) : Except String Bool := do
  let v ← env "num_ratings"
  match v with
  | none => .ok true
  | some x => .ok (decide (x < 20))

/-- Collect the movie ids selected by the vote-count subquery. -/
def collectVoteIds : List (MovieRow × Option RatingRow) → Except String (List Int)
  | [] => .ok []
  | (m, r) :: rest => do
    let b ← voteWhere (rowEnv m r)
    let t ← collectVoteIds rest
    .ok (if b then m.id :: t else t)

/-- The vote-count `DELETE` of `clean_data`: its subquery references the
column `num_ratings`, which exists in neither `movies` nor `ratings`
(the ratings table's column is `num_votes`), so PostgreSQL raises
`UndefinedColumn` before deleting anything. -/
def cleanStep3 (db : DB) : Except String DB := do
  analyzeCols voteDeleteRefs joinedCols
  let ids ← collectVoteIds (leftJoinMR db)
  .ok (deleteMoviesWhere db (fun m => ids.contains m.id))

/-- Statement `DELETE FROM movies WHERE genres LIKE '%News%' OR ...` — `LIKE` with
a `NULL` operand is unknown, so `NULL`-genre rows are kept. -/
def cleanStep4 (db : DB) : DB :=
  deleteMoviesWhere db (fun m =>
    match m.genres with
    | none => false
    | some g =>
      decide ("News".data <:+: g.data) || decide ("Talk-Show".data <:+: g.data)
        || decide ("Reality-TV".data <:+: g.data) || decide ("Adult".data <:+: g.data))

/-- Statement `DELETE FROM people WHERE id IN (SELECT id FROM people LEFT JOIN
stars ON id = person_id WHERE movie_id IS NULL)`: deletes people with no
stars edge, cascading into `stars` (vacuously, as deleted people have no
edges). -/
def cleanStep5 (db : DB) : DB :=
  let dead := (db.people.filter (fun p =>
    !db.stars.any (fun s => s.person_id == p.id))).map (fun p => p.id)
  { movies := db.movies,
    ratings := db.ratings,
    people := db.people.filter (fun p => db.stars.any (fun s => s.person_id == p.id)),
    stars := db.stars.filter (fun s => !dead.contains s.person_id) }

/-- Function `clean_data`: the five `DELETE` statements in source order. -/
def clean_data (db : DB) : Except String DB := do
  let db3 ← cleanStep3 (cleanStep2 (cleanStep1 db))
  .ok (cleanStep5 (cleanStep4 db3))

/-! ## C3 / C4: the vote-count DELETE and `clean_data` -/

/-- C3. The vote-count deletion of the Cleaning Stage never
completes: its subquery references the column `num_ratings`, which does
not exist (`ratings` has `num_votes`), so on every store the statement
raises `UndefinedColumn` instead of deleting the below-threshold
movies. -/
theorem c3_vote_delete_errors (db : DB) :
    cleanStep3 db = .error "UndefinedColumn: column num_ratings does not exist" := by
  rfl

/-- C4. `clean_data` cannot be idempotent because it cannot be run:
on every store it aborts with the `UndefinedColumn` error of its
vote-count `DELETE`, so no store state is reachable by one run of
`clean_data` at all. -/
theorem c4_clean_data_always_errors (db : DB) :
    clean_data db = .error "UndefinedColumn: column num_ratings does not exist" := by
  rfl

/-! ## C5: full load-and-clean cycle on a fixture dataset -/

def fixtureTitles : List RawTitle :=
  [{ tconst := "tt0000010", primaryTitle := "Movie One", startYear := "2000",
     titleType := "movie", isAdult := "0", runtimeMinutes := "100", genres := "Drama" },
   { tconst := "tt0000020", primaryTitle := "Movie Two", startYear := "2005",
     titleType := "movie", isAdult := "0", runtimeMinutes := "90", genres := "Comedy" }]

def fixtureRatings : List RawRating :=
  [{ tconst := "tt0000010", averageRating := "7.5", numVotes := "100" },
   { tconst := "tt0000020", averageRating := "6.0", numVotes := "50" }]

def fixtureNames : List RawName :=
  [{ nconst := "nm0000001", primaryName := "Alice Alpha", birthYear := "1970",
     deathYear := "\\N", knownForTitles := "tt0000010" },
   { nconst := "nm0000002", primaryName := "Bob Beta", birthYear := "1980",
     deathYear := "\\N", knownForTitles := "tt0000010,tt0000020" },
   { nconst := "nm0000003", primaryName := "Carol Gamma", birthYear := "\\N",
     deathYear := "\\N", knownForTitles := "\\N" }]

def fixturePrincipals : List RawPrincipal :=
  [{ tconst := "tt0000010", nconst := "nm0000001", category := "actor" },
   { tconst := "tt0000010", nconst := "nm0000002", category := "actress" },
   { tconst := "tt0000020", nconst := "nm0000002", category := "actor" },
   { tconst := "tt0000020", nconst := "nm0000003", category := "director" }]

/-- C5. On a consistent fixture dataset the full load succeeds, but
the load-and-clean cycle (`make_movies`, `make_ratings`, `make_people`,
`make_stars`, `clean_data` in order) never reaches a post-clean state:
`clean_data` aborts with the `UndefinedColumn` error of its vote-count
`DELETE`, before the step that would remove edgeless people. -/
theorem c5_load_clean_cycle :
    (loadAll fixtureTitles fixtureRatings fixtureNames fixturePrincipals).isOk = true
    ∧ (loadAll fixtureTitles fixtureRatings fixtureNames fixturePrincipals >>= clean_data)
        = .error "UndefinedColumn: column num_ratings does not exist" := by
  constructor
  · decide
  · rfl

/-! ## C10: the category rule keeps NULL-typed movies -/

/-- C10. The title-category rule never deletes a movie whose
`title_type` is `NULL`: the `NOT IN` predicate is unknown on `NULL`, so
the row survives `cleanStep2` even though `NULL` is outside the retained
set. -/
theorem c10_null_type_survives (db : DB) (m : MovieRow)
    (hm : m ∈ db.movies) (ht : m.title_type = none) :
    m ∈ (cleanStep2 db).movies := by
  unfold cleanStep2 deleteMoviesWhere
  simp only [List.mem_filter]
  refine ⟨hm, ?_⟩
  rw [ht]
  rfl

def nullTypeMovie : MovieRow :=
  { id := 5, title := "Untyped", year := none, title_type := none,
    is_adult := none, runtime := none, genres := none }

def nullTypeDb : DB :=
  { movies := [{ id := 4, title := "Reality", year := none, title_type := some "realityShow",
                 is_adult := none, runtime := none, genres := none }, nullTypeMovie],
    ratings := [], people := [], stars := [] }

/-- Witness for C10: in a store holding a `NULL`-typed movie next to a
disallowed-category movie, the `NULL`-typed one survives the category
rule. -/
theorem c10_null_type_survives_witness :
    nullTypeMovie ∈ nullTypeDb.movies ∧ nullTypeMovie.title_type = none
    ∧ nullTypeMovie ∈ (cleanStep2 nullTypeDb).movies := by
  refine ⟨by decide, rfl, ?_⟩
  exact c10_null_type_survives nullTypeDb nullTypeMovie (by decide) rfl

/-! ## The co-appearance graph and the breadth-first search of `main.py` -/

/-- Function `find_contacts`: the self-join
`SELECT DISTINCT s2.person_id FROM stars s1 JOIN stars s2 ON s1.movie_id
= s2.movie_id WHERE s1.person_id = i AND s2.person_id != i`. -/
def findContacts (stars : List StarRow) (i : Int) : List Int :=
  ((stars.filter (fun s1 => s1.person_id == i)).flatMap (fun s1 =>
    (stars.filter (fun s2 => s2.movie_id == s1.movie_id && s2.person_id != i)).map
      (fun s2 => s2.person_id))).dedup

/-- The co-appearance relation behind `find_contacts`: two distinct
people share at least one movie. -/
def Adj (stars : List StarRow) (i j : Int) : Prop :=
  i ≠ j ∧ ∃ s1 s2, s1 ∈ stars ∧ s2 ∈ stars ∧ s1.person_id = i
    ∧ s2.person_id = j ∧ s1.movie_id = s2.movie_id

theorem mem_findContacts {stars : List StarRow} {i j : Int} :
    j ∈ findContacts stars i ↔ Adj stars i j := by
  simp only [findContacts, List.mem_dedup, List.mem_flatMap, List.mem_filter,
    List.mem_map, beq_iff_eq, Bool.and_eq_true, bne_iff_ne, Adj]
  constructor
  · rintro ⟨s1, ⟨hs1, hp1⟩, s2, ⟨hs2, hm, hp2⟩, rfl⟩
    exact ⟨fun h => hp2 h.symm, s1, s2, hs1, hs2, hp1, rfl, hm.symm⟩
  · rintro ⟨hne, s1, s2, hs1, hs2, hp1, hp2, hm⟩
    exact ⟨s1, ⟨hs1, hp1⟩, s2, ⟨hs2, hm.symm, fun h => hne (by rw [← h, hp2])⟩, hp2⟩

theorem Adj.symm {stars : List StarRow} {i j : Int} (h : Adj stars i j) :
    Adj stars j i := by
  obtain ⟨hne, s1, s2, hs1, hs2, hp1, hp2, hm⟩ := h
  exact ⟨hne.symm, s2, s1, hs2, hs1, hp2, hp1, hm.symm⟩

theorem Adj.ne {stars : List StarRow} {i j : Int} (h : Adj stars i j) : i ≠ j :=
  h.1

/-- Outcomes of `solve`: a found path, the `None` return when the queue
is exhausted, and the `sys.exit` circuit breaker. -/
inductive SolveResult where
  | path (p : List Int)
  | noPath
  | abort
deriving DecidableEq, Repr

/-- The entries enqueued after processing node `c` with stored path
`p`: every contact of `c` not already visited, at depth one more. -/
def bfsNews (stars : List StarRow) (c : Int) (p : List Int) (visited : List Int) :
    List (Int × List Int) :=
  ((findContacts stars c).filter (fun y => decide (y ∉ c :: visited))).map
    (fun y => (y, c :: p))

/-- The `while queue:` loop of `solve`.  The fuel counts the dequeues
still allowed before `nodes_visited` would exceed `max_nodes`; a
nonempty queue with no fuel left is the fatal `sys.exit`.  Queue entries
pair a node with the path back to the start (most recent first), as in
the Python code. -/
def solveLoop (stars : List StarRow) (target : Int) :
    Nat → List (Int × List Int) → List Int → SolveResult
  | _, [], _ => .noPath
  | 0, _ :: _, _ => .abort
  | fuel + 1, (c, p) :: rest, visited =>
    if c ∈ visited then solveLoop stars target fuel rest visited
    else if target ∈ findContacts stars c then .path (target :: c :: p)
    else
      solveLoop stars target fuel (rest ++ bfsNews stars c p visited) (c :: visited)

/-- The default `max_nodes` ceiling of `solve`. -/
def defaultMaxNodes : Nat := 1000000

/-- Function `solve(start_node, target, max_nodes)`. -/
def solve (stars : List StarRow) (start_node target : Int) (max_nodes : Nat) :
    SolveResult :=
  solveLoop stars target max_nodes [(start_node, [])] []

/-! ## C7: the three outcomes of `solve` on a two-component fixture -/

/-- Fixture with two disconnected components: people 1,2 share movie 100
and people 3,4 share movie 200. -/
def twoCompStars : List StarRow :=
  [{ person_id := 1, movie_id := 100, category := "actor" },
   { person_id := 2, movie_id := 100, category := "actress" },
   { person_id := 3, movie_id := 200, category := "actor" },
   { person_id := 4, movie_id := 200, category := "actress" }]

/-- C7. `solve` has exactly three pairwise-distinct outcomes, and on
the two-component fixture the cross-component query returns "no path"
under an adequate ceiling (both 10 and the default 1000000) but aborts
fatally when the ceiling (1) is below the reachable component's node
count (2). -/
theorem c7_three_outcomes :
    (∀ p, SolveResult.path p ≠ SolveResult.noPath)
    ∧ (∀ p, SolveResult.path p ≠ SolveResult.abort)
    ∧ SolveResult.noPath ≠ SolveResult.abort
    ∧ solve twoCompStars 1 3 10 = .noPath
    ∧ solve twoCompStars 1 3 defaultMaxNodes = .noPath
    ∧ solve twoCompStars 1 3 1 = .abort := by
  refine ⟨?_, ?_, ?_, by decide, by decide, by decide⟩
  · intro p h
    cases h
  · intro p h
    cases h
  · intro h
    cases h

/-! ## Basic loop equations -/

theorem solveLoop_nil (stars : List StarRow) (target : Int) (fuel : Nat)
    (visited : List Int) : solveLoop stars target fuel [] visited = .noPath := by
  cases fuel <;> rfl

theorem solveLoop_cons (stars : List StarRow) (target : Int) (fuel : Nat)
    (c : Int) (p : List Int) (rest : List (Int × List Int)) (visited : List Int) :
    solveLoop stars target (fuel + 1) ((c, p) :: rest) visited =
      if c ∈ visited then solveLoop stars target fuel rest visited
      else if target ∈ findContacts stars c then .path (target :: c :: p)
      else
        solveLoop stars target fuel (rest ++ bfsNews stars c p visited)
          (c :: visited) := rfl

theorem solveLoop_abort (stars : List StarRow) (target : Int)
    (e : Int × List Int) (rest : List (Int × List Int)) (visited : List Int) :
    solveLoop stars target 0 (e :: rest) visited = .abort := rfl

/-- A person is never their own contact: `find_contacts` excludes the
queried id. -/
theorem not_self_mem_findContacts (stars : List StarRow) (i : Int) :
    i ∉ findContacts stars i := fun h => (mem_findContacts.mp h).ne rfl

/-! ## C9: querying a person against themselves -/

/-- C9. `solve(start, start)` never returns the one-node path:
because adjacency excludes self-pairs, a person with no co-appearances
gets the "no path" outcome, and a person with at least one contact gets
the three-node round trip `[start, n, start]` through their first
contact. -/
theorem c9_self_query (stars : List StarRow) (s : Int) :
    (findContacts stars s = [] → solve stars s s defaultMaxNodes = .noPath)
    ∧ (∀ n l, findContacts stars s = n :: l →
        n ∈ findContacts stars s ∧ solve stars s s defaultMaxNodes = .path [s, n, s]) := by
  have e1 : defaultMaxNodes = 999999 + 1 := rfl
  constructor
  · intro h
    rw [solve, e1, solveLoop_cons, if_neg (List.not_mem_nil s),
      if_neg (not_self_mem_findContacts stars s)]
    simp only [bfsNews, h]
    simp only [List.filter_nil, List.map_nil, List.nil_append]
    exact solveLoop_nil stars s 999999 [s]
  · intro n l h
    have hn_mem : n ∈ findContacts stars s := by rw [h]; exact List.mem_cons_self n l
    have hAdj : Adj stars s n := mem_findContacts.mp hn_mem
    have hns : n ≠ s := hAdj.ne.symm
    have hfilt : (n :: l).filter (fun y => decide (y ∉ s :: ([] : List Int))) = n :: l := by
      rw [List.filter_eq_self]
      intro a ha
      have haf : a ∈ findContacts stars s := by rw [h]; exact ha
      have : a ≠ s := (mem_findContacts.mp haf).ne.symm
      simpa using this
    refine ⟨hn_mem, ?_⟩
    rw [solve, e1, solveLoop_cons, if_neg (List.not_mem_nil s),
      if_neg (not_self_mem_findContacts stars s)]
    simp only [bfsNews, h]
    rw [hfilt]
    simp only [List.map_cons, List.nil_append]
    have e2 : (999999 : Nat) = 999998 + 1 := rfl
    rw [e2, solveLoop_cons, if_neg (by simpa using hns),
      if_pos (mem_findContacts.mpr hAdj.symm)]

def selfLoopStars : List StarRow :=
  [{ person_id := 1, movie_id := 10, category := "actor" },
   { person_id := 2, movie_id := 10, category := "actress" }]

/-- Witness for C9: a person with no edges gets "no path"; person 1 with
contact 2 gets the round trip `[1, 2, 1]`. -/
theorem c9_self_query_witness :
    solve [] 5 5 defaultMaxNodes = .noPath
    ∧ (2 ∈ findContacts selfLoopStars 1
        ∧ solve selfLoopStars 1 1 defaultMaxNodes = .path [1, 2, 1]) := by
  refine ⟨(c9_self_query [] 5).1 rfl, ?_⟩
  exact (c9_self_query selfLoopStars 1).2 2 [] (by decide)

/-! ## Paths in the co-appearance graph

A queue entry of `solve` pairs a node with the list of its predecessors
back to the start (most recent first); `PathTo` is the shape invariant
of such an entry. -/

/-- The list `x :: p` is a chain of co-appearing people whose last element is
`start`; `p.length` is the number of hops from `start` to `x`. -/
def PathTo (stars : List StarRow) (start x : Int) (p : List Int) : Prop :=
  List.Chain' (Adj stars) (x :: p) ∧ (x :: p).getLast (List.cons_ne_nil x p) = start

/-- Whether `target` can be reached from `start`. -/
def Reach (stars : List StarRow) (start target : Int) : Prop :=
  ∃ p, PathTo stars start target p

/-- The number `n` is the minimum hop count from `start` to `x`. -/
def MinHops (stars : List StarRow) (start x : Int) (n : Nat) : Prop :=
  (∃ p, PathTo stars start x p ∧ p.length = n)
    ∧ ∀ q, PathTo stars start x q → n ≤ q.length

theorem pathTo_refl (stars : List StarRow) (start : Int) :
    PathTo stars start start [] :=
  ⟨List.chain'_singleton start, rfl⟩

theorem pathTo_nil {stars : List StarRow} {start x : Int}
    (h : PathTo stars start x []) : x = start := h.2

theorem pathTo_cons {stars : List StarRow} {start x w : Int} {t : List Int}
    (h : PathTo stars start x (w :: t)) :
    Adj stars x w ∧ PathTo stars start w t := by
  obtain ⟨hc, hl⟩ := h
  rw [List.chain'_cons] at hc
  exact ⟨hc.1, hc.2, by rw [← hl, List.getLast_cons (List.cons_ne_nil w t)]⟩

theorem pathTo_extend {stars : List StarRow} {start c y : Int} {p : List Int}
    (h : PathTo stars start c p) (ha : Adj stars y c) :
    PathTo stars start y (c :: p) := by
  obtain ⟨hc, hl⟩ := h
  exact ⟨List.chain'_cons.mpr ⟨ha, hc⟩, by rw [List.getLast_cons (List.cons_ne_nil c p)]; exact hl⟩

/-! ## The breadth-first-search invariant -/

/-- Order on queue entries by stored path length (the BFS depth). -/
def entryLe (a b : Int × List Int) : Prop :=
  a.2.length ≤ b.2.length

/-- Invariant tying `solve`'s queue and visited set to the graph:

* `valid` — every queue entry carries a real path back to the start;
* `sorted`/`window` — depths are nondecreasing along the queue and span
  at most two consecutive levels;
* `layer` — every node strictly closer than the queue front is visited;
* `closure` — every neighbour of a visited node is visited or queued at
  depth at most one more than any path to the visited node;
* `notarget` — no visited node has the target as a contact (otherwise
  the loop would have returned);
* `startin` — the start is visited, except in the initial state. -/
structure BfsInv (stars : List StarRow) (start target : Int)
    (Q : List (Int × List Int)) (V : List Int) : Prop where
  valid : ∀ e ∈ Q, PathTo stars start e.1 e.2
  sorted : List.Pairwise entryLe Q
  window : ∀ e₀ rest, Q = e₀ :: rest → ∀ e ∈ Q, e.2.length ≤ e₀.2.length + 1
  layer : ∀ e₀ rest, Q = e₀ :: rest → ∀ x q, PathTo stars start x q →
    q.length < e₀.2.length → x ∈ V
  closure : ∀ v ∈ V, ∀ y, Adj stars v y → y ∈ V ∨
    ∃ q, (y, q) ∈ Q ∧ ∀ r, PathTo stars start v r → q.length ≤ r.length + 1
  notarget : ∀ v ∈ V, ¬ Adj stars v target
  startin : start ∈ V ∨ (Q = [(start, [])] ∧ V = [])

/-- The invariant holds in `solve`'s initial state. -/
theorem bfsInv_init (stars : List StarRow) (start target : Int) :
    BfsInv stars start target [(start, [])] [] := by
  refine ⟨?_, ?_, ?_, ?_, ?_, ?_, ?_⟩
  · intro e he
    rw [List.mem_singleton] at he
    subst he
    exact pathTo_refl stars start
  · exact List.pairwise_singleton _ _
  · rintro e₀ rest h e he
    cases h
    rw [List.mem_singleton] at he
    subst he
    exact Nat.zero_le _
  · rintro e₀ rest h x q _ hlt
    cases h
    exact absurd hlt (Nat.not_lt_zero _)
  · intro v hv
    cases hv
  · intro v hv
    cases hv
  · exact Or.inr ⟨rfl, rfl⟩

/-- With an exhausted queue, every reachable node is visited. -/
theorem bfsInv_exhausted {stars : List StarRow} {start target : Int} {V : List Int}
    (inv : BfsInv stars start target [] V) :
    ∀ n x q, PathTo stars start x q → q.length = n → x ∈ V := by
  intro n
  induction n with
  | zero =>
    intro x q hq hlen
    rw [List.length_eq_zero] at hlen
    subst hlen
    have hx : x = start := pathTo_nil hq
    subst hx
    rcases inv.startin with h | ⟨hQ, _⟩
    · exact h
    · cases hQ
  | succ n ih =>
    intro x q hq hlen
    cases q with
    | nil => cases hlen
    | cons w t =>
      obtain ⟨haxw, hwt⟩ := pathTo_cons hq
      have hwV : w ∈ V := ih w t hwt (Nat.succ_injective hlen)
      rcases inv.closure w hwV x haxw.symm with h | ⟨q', hq', _⟩
      · exact h
      · cases hq'

/-- A sorted queue's head has the minimum depth. -/
theorem sorted_head_le {e₀ : Int × List Int} {rest : List (Int × List Int)}
    (hs : List.Pairwise entryLe (e₀ :: rest)) :
    ∀ e ∈ e₀ :: rest, e₀.2.length ≤ e.2.length := by
  intro e he
  rcases List.mem_cons.mp he with rfl | h
  · exact le_refl _
  · exact (List.pairwise_cons.mp hs).1 e h

/-- Preservation: dequeuing an already-visited node keeps the
invariant. -/
theorem bfsInv_skip {stars : List StarRow} {start target c : Int} {p : List Int}
    {R : List (Int × List Int)} {V : List Int}
    (inv : BfsInv stars start target ((c, p) :: R) V) (hcv : c ∈ V) :
    BfsInv stars start target R V := by
  have hsortR : List.Pairwise entryLe R := (List.pairwise_cons.mp inv.sorted).2
  refine ⟨?_, hsortR, ?_, ?_, ?_, inv.notarget, ?_⟩
  · exact fun e he => inv.valid e (List.mem_cons_of_mem _ he)
  · intro e₀ rest h e he
    have h1 : e.2.length ≤ p.length + 1 :=
      inv.window (c, p) R rfl e (List.mem_cons_of_mem _ he)
    have h2 : entryLe (c, p) e₀ :=
      (List.pairwise_cons.mp inv.sorted).1 e₀ (by rw [h]; exact List.mem_cons_self _ _)
    have h2a : p.length ≤ e₀.2.length := h2
    omega
  · intro e₀ rest h x q hq hlt
    have he₀R : e₀ ∈ R := by rw [h]; exact List.mem_cons_self _ _
    have hwin : e₀.2.length ≤ p.length + 1 :=
      inv.window (c, p) R rfl e₀ (List.mem_cons_of_mem _ he₀R)
    by_cases hql : q.length < p.length
    · exact inv.layer (c, p) R rfl x q hq hql
    · have hq_eq : q.length = p.length := by omega
      cases q with
      | nil =>
        have hx : x = start := pathTo_nil hq
        subst hx
        rcases inv.startin with hsv | ⟨hQ, hV⟩
        · exact hsv
        · injection hQ with h1 h2
          rw [h2] at h
          cases h
      | cons w t =>
        obtain ⟨haxw, hwt⟩ := pathTo_cons hq
        have htlen : t.length + 1 = p.length := by
          simpa using hq_eq
        have hwV : w ∈ V :=
          inv.layer (c, p) R rfl w t hwt (show t.length < p.length by omega)
        rcases inv.closure w hwV x haxw.symm with hxV | ⟨qq, hqq_mem, hbound⟩
        · exact hxV
        · have hqq_le : qq.length ≤ p.length := by
            have := hbound t hwt
            omega
          rcases List.mem_cons.mp hqq_mem with heq | hmemR
          · have : x = c := congrArg Prod.fst heq
            rw [this]
            exact hcv
          · exfalso
            have hle := sorted_head_le (h ▸ hsortR) (x, qq) (by rw [← h]; exact hmemR)
            simp only [entryLe] at hle
            simp only [List.length_cons] at hq_eq hlt
            omega
  · intro v hv y hadj
    rcases inv.closure v hv y hadj with hyV | ⟨qq, hqq, hb⟩
    · exact Or.inl hyV
    · rcases List.mem_cons.mp hqq with heq | hR
      · have : y = c := congrArg Prod.fst heq
        rw [this]
        exact Or.inl hcv
      · exact Or.inr ⟨qq, hR, hb⟩
  · rcases inv.startin with hsv | ⟨hQ, hV⟩
    · exact Or.inl hsv
    · rw [hV] at hcv
      cases hcv

/-- A list of entries of equal depth is sorted. -/
theorem pairwise_entryLe_of_const {l : List (Int × List Int)} {n : Nat}
    (h : ∀ e ∈ l, e.2.length = n) : List.Pairwise entryLe l := by
  induction l with
  | nil => exact List.Pairwise.nil
  | cons a t ih =>
    refine List.pairwise_cons.mpr ⟨?_, ih fun e he => h e (List.mem_cons_of_mem _ he)⟩
    intro b hb
    unfold entryLe
    rw [h a (List.mem_cons_self _ _), h b (List.mem_cons_of_mem _ hb)]

theorem mem_bfsNews {stars : List StarRow} {c : Int} {p V : List Int}
    {e : Int × List Int} :
    e ∈ bfsNews stars c p V ↔
      ∃ y, y ∈ findContacts stars c ∧ y ∉ c :: V ∧ e = (y, c :: p) := by
  simp only [bfsNews, List.mem_map, List.mem_filter, decide_eq_true_eq]
  constructor
  · rintro ⟨y, ⟨hy1, hy2⟩, rfl⟩
    exact ⟨y, hy1, hy2, rfl⟩
  · rintro ⟨y, hy1, hy2, rfl⟩
    exact ⟨y, ⟨hy1, hy2⟩, rfl⟩

theorem bfsNews_len {stars : List StarRow} {c : Int} {p V : List Int}
    {e : Int × List Int} (he : e ∈ bfsNews stars c p V) :
    e.2.length = p.length + 1 := by
  obtain ⟨y, _, _, rfl⟩ := mem_bfsNews.mp he
  rfl

/-- Preservation: processing an unvisited node whose contacts do not
include the target keeps the invariant. -/
theorem bfsInv_process {stars : List StarRow} {start target c : Int} {p : List Int}
    {R : List (Int × List Int)} {V : List Int}
    (inv : BfsInv stars start target ((c, p) :: R) V)
    (hcv : c ∉ V) (hnt : target ∉ findContacts stars c) :
    BfsInv stars start target (R ++ bfsNews stars c p V) (c :: V) := by
  have hpc : PathTo stars start c p := inv.valid (c, p) (List.mem_cons_self _ _)
  have hcd : ∀ r, PathTo stars start c r → p.length ≤ r.length := by
    intro r hr
    by_contra hlt
    push_neg at hlt
    exact hcv (inv.layer (c, p) R rfl c r hr hlt)
  have hR_lower : ∀ e ∈ R, p.length ≤ e.2.length := by
    intro e he
    exact (List.pairwise_cons.mp inv.sorted).1 e he
  have hR_upper : ∀ e ∈ R, e.2.length ≤ p.length + 1 := by
    intro e he
    exact inv.window (c, p) R rfl e (List.mem_cons_of_mem _ he)
  have hQ_lower : ∀ e ∈ R ++ bfsNews stars c p V, p.length ≤ e.2.length := by
    intro e he
    rcases List.mem_append.mp he with h | h
    · exact hR_lower e h
    · rw [bfsNews_len h]
      omega
  have hQ_upper : ∀ e ∈ R ++ bfsNews stars c p V, e.2.length ≤ p.length + 1 := by
    intro e he
    rcases List.mem_append.mp he with h | h
    · exact hR_upper e h
    · rw [bfsNews_len h]
  have hsorted : List.Pairwise entryLe (R ++ bfsNews stars c p V) := by
    rw [List.pairwise_append]
    refine ⟨(List.pairwise_cons.mp inv.sorted).2,
      pairwise_entryLe_of_const (fun e he => bfsNews_len he), ?_⟩
    intro a ha b hb
    have h1 := hR_upper a ha
    have h2 := bfsNews_len hb
    unfold entryLe
    omega
  refine ⟨?_, hsorted, ?_, ?_, ?_, ?_, ?_⟩
  · intro e he
    rcases List.mem_append.mp he with h | h
    · exact inv.valid e (List.mem_cons_of_mem _ h)
    · obtain ⟨y, hy1, _, rfl⟩ := mem_bfsNews.mp h
      exact pathTo_extend hpc (mem_findContacts.mp hy1).symm
  · intro e₀ rest h e he
    have he₀ : e₀ ∈ R ++ bfsNews stars c p V := by rw [h]; exact List.mem_cons_self _ _
    have h1 := hQ_lower e₀ he₀
    have h2 := hQ_upper e he
    omega
  · intro e₀ rest h x q hq hlt
    have he₀ : e₀ ∈ R ++ bfsNews stars c p V := by rw [h]; exact List.mem_cons_self _ _
    have hup := hQ_upper e₀ he₀
    by_cases hql : q.length < p.length
    · exact List.mem_cons_of_mem _ (inv.layer (c, p) R rfl x q hq hql)
    · have hq_eq : q.length = p.length := by omega
      cases q with
      | nil =>
        have hx : x = start := pathTo_nil hq
        subst hx
        rcases inv.startin with hsv | ⟨hQ, _⟩
        · exact List.mem_cons_of_mem _ hsv
        · injection hQ with hhd _
          injection hhd with hc _
          rw [hc]
          exact List.mem_cons_self _ _
      | cons w t =>
        obtain ⟨haxw, hwt⟩ := pathTo_cons hq
        have htlen : t.length + 1 = p.length := by simpa using hq_eq
        have hwV : w ∈ V :=
          inv.layer (c, p) R rfl w t hwt (show t.length < p.length by omega)
        rcases inv.closure w hwV x haxw.symm with hxV | ⟨qq, hqq_mem, hbound⟩
        · exact List.mem_cons_of_mem _ hxV
        · have hqq_le : qq.length ≤ p.length := by
            have := hbound t hwt
            omega
          rcases List.mem_cons.mp hqq_mem with heq | hmemR
          · have : x = c := congrArg Prod.fst heq
            rw [this]
            exact List.mem_cons_self _ _
          · exfalso
            have hmemQ : (x, qq) ∈ R ++ bfsNews stars c p V :=
              List.mem_append.mpr (Or.inl hmemR)
            have hle := sorted_head_le (h ▸ hsorted) (x, qq) (by rw [← h]; exact hmemQ)
            simp only [entryLe] at hle
            simp only [List.length_cons] at hq_eq hlt
            omega
  · intro v hv y hadj
    rcases List.mem_cons.mp hv with rfl | hvV
    · by_cases hyV : y ∈ v :: V
      · exact Or.inl hyV
      · refine Or.inr ⟨v :: p, ?_, ?_⟩
        · exact List.mem_append.mpr (Or.inr (mem_bfsNews.mpr
            ⟨y, mem_findContacts.mpr hadj, hyV, rfl⟩))
        · intro r hr
          have := hcd r hr
          simp only [List.length_cons]
          omega
    · rcases inv.closure v hvV y hadj with hyV | ⟨qq, hqq, hb⟩
      · exact Or.inl (List.mem_cons_of_mem _ hyV)
      · rcases List.mem_cons.mp hqq with heq | hRq
        · have : y = c := congrArg Prod.fst heq
          rw [this]
          exact Or.inl (List.mem_cons_self _ _)
        · exact Or.inr ⟨qq, List.mem_append.mpr (Or.inl hRq), hb⟩
  · intro v hv
    rcases List.mem_cons.mp hv with rfl | hvV
    · intro hadj
      exact hnt (mem_findContacts.mpr hadj)
    · exact inv.notarget v hvV
  · rcases inv.startin with hsv | ⟨hQ, _⟩
    · exact Or.inl (List.mem_cons_of_mem _ hsv)
    · injection hQ with hhd _
      injection hhd with hc _
      rw [← hc]
      exact Or.inl (List.mem_cons_self _ _)

/-- With the invariant and an empty queue, the target is unreachable
(otherwise some visited neighbour of the target would have triggered a
return earlier). -/
theorem bfsInv_noReach {stars : List StarRow} {start target : Int} {V : List Int}
    (inv : BfsInv stars start target [] V) (hst : start ≠ target) :
    ¬ Reach stars start target := by
  rintro ⟨q, hq⟩
  cases q with
  | nil => exact hst (pathTo_nil hq).symm
  | cons w t =>
    obtain ⟨hatw, hwt⟩ := pathTo_cons hq
    have hwV := bfsInv_exhausted inv t.length w t hwt rfl
    exact inv.notarget w hwV hatw.symm

/-- Soundness and completeness of the search loop: from an invariant
state, a `path` result is a genuine shortest path written from the
target back to the start, and a `noPath` result means the target is
unreachable. -/
theorem solveLoop_correct (stars : List StarRow) (start target : Int)
    (hst : start ≠ target) :
    ∀ (fuel : Nat) (Q : List (Int × List Int)) (V : List Int),
      BfsInv stars start target Q V →
      (∀ res, solveLoop stars target fuel Q V = .path res →
        ∃ c p, res = target :: c :: p ∧ PathTo stars start target (c :: p)
          ∧ MinHops stars start target (p.length + 1))
      ∧ (solveLoop stars target fuel Q V = .noPath → ¬ Reach stars start target) := by
  intro fuel
  induction fuel with
  | zero =>
    intro Q V inv
    cases Q with
    | nil =>
      refine ⟨?_, fun _ => bfsInv_noReach inv hst⟩
      intro res h
      rw [solveLoop_nil] at h
      cases h
    | cons e rest =>
      refine ⟨?_, ?_⟩
      · intro res h
        rw [solveLoop_abort] at h
        cases h
      · intro h
        rw [solveLoop_abort] at h
        cases h
  | succ n ih =>
    intro Q V inv
    cases Q with
    | nil =>
      refine ⟨?_, fun _ => bfsInv_noReach inv hst⟩
      intro res h
      rw [solveLoop_nil] at h
      cases h
    | cons e rest =>
      obtain ⟨c, p⟩ := e
      rw [solveLoop_cons]
      by_cases hcv : c ∈ V
      · rw [if_pos hcv]
        exact ih rest V (bfsInv_skip inv hcv)
      · rw [if_neg hcv]
        by_cases htc : target ∈ findContacts stars c
        · rw [if_pos htc]
          refine ⟨?_, ?_⟩
          · intro res h
            injection h with hres
            have hpath : PathTo stars start target (c :: p) :=
              pathTo_extend (inv.valid (c, p) (List.mem_cons_self _ _))
                (mem_findContacts.mp htc).symm
            refine ⟨c, p, hres.symm, hpath, ⟨c :: p, hpath, rfl⟩, ?_⟩
            intro q hq
            cases q with
            | nil => exact absurd (pathTo_nil hq).symm hst
            | cons w t =>
              obtain ⟨hatw, hwt⟩ := pathTo_cons hq
              by_contra hlt
              push_neg at hlt
              have htl : t.length < p.length := by
                simp only [List.length_cons] at hlt
                omega
              have hwV : w ∈ V := inv.layer (c, p) rest rfl w t hwt htl
              exact inv.notarget w hwV hatw.symm
          · intro h
            cases h
        · rw [if_neg htc]
          exact ih _ _ (bfsInv_process inv hcv htc)

/-! ## C1: shortest-path resolution -/

/-- Fixture graph with edges A–M1–B and B–M2–C only
(A = 1, B = 2, C = 3, M1 = 10, M2 = 20). -/
def demoChainStars : List StarRow :=
  [{ person_id := 1, movie_id := 10, category := "actor" },
   { person_id := 2, movie_id := 10, category := "actress" },
   { person_id := 2, movie_id := 20, category := "actor" },
   { person_id := 3, movie_id := 20, category := "actress" }]

/-- C1 (amended). For every pair of distinct, connected person ids,
whenever `solve` does not hit its node ceiling it returns an ordered
sequence of person ids from the *target* to the *start* (the code builds
the path in reverse) whose length is the minimum hop count plus one and
whose consecutive ids co-appear in at least one movie; on the fixture
graph A–M1–B, B–M2–C, `solve(A, C)` returns `[C, B, A]` and
`solve(A, B)` returns `[B, A]`. -/
theorem c1_solve_shortest_path :
    (solve demoChainStars 1 3 defaultMaxNodes = .path [3, 2, 1]
      ∧ solve demoChainStars 1 2 defaultMaxNodes = .path [2, 1])
    ∧ ∀ (stars : List StarRow) (start target : Int) (maxN : Nat),
        start ≠ target → Reach stars start target →
        solve stars start target maxN ≠ .abort →
        ∃ res k, solve stars start target maxN = .path res
          ∧ res.head? = some target ∧ res.getLast? = some start
          ∧ List.Chain' (Adj stars) res
          ∧ MinHops stars start target k ∧ res.length = k + 1 := by
  constructor
  · exact ⟨by decide, by decide⟩
  · intro stars start target maxN hst hreach habort
    have H := solveLoop_correct stars start target hst maxN [(start, [])] []
      (bfsInv_init stars start target)
    cases hsv : solve stars start target maxN with
    | path res =>
      obtain ⟨c, p, hshape, hpath, hmin⟩ := H.1 res hsv
      refine ⟨res, p.length + 1, rfl, ?_, ?_, ?_, hmin, ?_⟩
      · rw [hshape]
        rfl
      · rw [hshape, List.getLast?_eq_getLast _ (List.cons_ne_nil _ _)]
        exact congrArg some hpath.2
      · rw [hshape]
        exact hpath.1
      · rw [hshape]
        simp
    | noPath => exact absurd hreach (H.2 hsv)
    | abort => exact absurd hsv habort

/-- Counterexample to C1 as stated: on the fixture graph the path is
returned from the target back to the start, so `solve(A, C)` is not
`[A, B, C]` and `solve(A, B)` is not `[A, B]`. -/
theorem c1_counterexample :
    solve demoChainStars 1 3 defaultMaxNodes ≠ .path [1, 2, 3]
    ∧ solve demoChainStars 1 2 defaultMaxNodes ≠ .path [1, 2] :=
  ⟨by decide, by decide⟩

/-- Witness for C1 (amended) on the fixture graph, ceiling 10. -/
theorem c1_solve_shortest_path_witness :
    (1 : Int) ≠ 3
    ∧ Reach demoChainStars 1 3
    ∧ solve demoChainStars 1 3 10 ≠ .abort
    ∧ ∃ res k, solve demoChainStars 1 3 10 = .path res
        ∧ res.head? = some 3 ∧ res.getLast? = some 1
        ∧ List.Chain' (Adj demoChainStars) res
        ∧ MinHops demoChainStars 1 3 k ∧ res.length = k + 1 := by
  have a32 : Adj demoChainStars 3 2 := mem_findContacts.mp (by decide)
  have a21 : Adj demoChainStars 2 1 := mem_findContacts.mp (by decide)
  have hreach : Reach demoChainStars 1 3 :=
    ⟨[2, 1], List.chain'_cons.mpr ⟨a32, List.chain'_cons.mpr ⟨a21, List.chain'_singleton 1⟩⟩, rfl⟩
  refine ⟨by decide, hreach, by decide, ?_⟩
  exact c1_solve_shortest_path.2 demoChainStars 1 3 10 (by decide) hreach (by decide)

/-! ## `check_name` and `get_most_famous`

`check_name` strips the input, matches it against names with the
case-insensitive pattern `(?:^|\s)INPUT(?:$|\s)`, and orders the matches
by `ORDER BY LENGTH(famous_movies) ASC` (PostgreSQL sorts `NULL` keys
last under `ASC`).  When several people match, the console listing skips
every candidate whose `get_most_famous` result is falsy (`False` for a
`NULL`/sentinel known-for value, `''` when no known-for title resolves
to a stored movie). -/

/-- Model of `str.split(',')`. -/
def pySplitComma : List Char → List (List Char)
  | [] => [[]]
  | c :: cs =>
    if c = ',' then [] :: pySplitComma cs
    else
      match pySplitComma cs with
      | [] => [[c]]
      | h :: t => (c :: h) :: t

/-- Lower-cased characters of a string (for the case-insensitive `~*`
match). -/
def lowerL (s : String) : List Char :=
  s.data.map Char.toLower

/-- Meaning of the POSIX pattern `(?:^|\s)PAT(?:$|\s)` on `text`, for a
pattern without regex metacharacters: `pat` occurs delimited by the
string boundary or whitespace on both sides. -/
def boundaryMatch (pat text : List Char) : Bool :=
  (List.range (text.length + 1)).any (fun i =>
    (decide (i = 0) || pyWs (text.getD (i - 1) 'a'))
      && pat.isPrefixOf (text.drop i)
      && (decide (i + pat.length = text.length) || pyWs (text.getD (i + pat.length) 'a')))

/-- The match `name ~* %s` with the pattern `check_name` builds from the stripped
input. -/
def nameMatches (input name : String) : Bool :=
  boundaryMatch (lowerL input) (lowerL name)

/-- The sort key `LENGTH(famous_movies)` — `NULL` on a `NULL` column. -/
def famousLen (p : PersonRow) : Option Nat :=
  p.famous_movies.map String.length

/-- PostgreSQL `ORDER BY ... ASC` key comparison with `NULL` keys last. -/
def keyLE (a b : Option Nat) : Bool :=
  match a, b with
  | _, none => true
  | none, some _ => false
  | some x, some y => decide (x ≤ y)

/-- The result set of `check_name`'s query: people matching the stripped
input, ordered ascending by the length of their known-for text. -/
def check_name_matches (people : List PersonRow) (raw : String) : List PersonRow :=
  (people.filter (fun p => nameMatches (pyStrip raw) p.name)).mergeSort
    (fun a b => keyLE (famousLen a) (famousLen b))

/-- The comprehension `[int(m_id[2:]) for m_id in items]` — a corrupt known-for id is a
`ValueError`. -/
def famousIds : List (List Char) → Except String (List Int)
  | [] => .ok []
  | t :: ts => do
    let i ← pyIntL (t.drop 2)
    let rest ← famousIds ts
    .ok (i :: rest)

/-- Function `get_most_famous`: `False` (here `none`) for a missing or sentinel
known-for value; otherwise the comma-join of the stored titles the
known-for ids resolve to, which is `''` when none resolves. -/
def get_most_famous (movies : List MovieRow) : Option String → Except String (Option String)
  | none => .ok none
  | some s =>
    if s = "\\N" then .ok none
    else do
      let ids ← famousIds (pySplitComma s.data)
      let titles := (movies.filter (fun m => ids.contains m.id)).map (fun m => m.title)
      .ok (some (if titles.isEmpty then "" else String.intercalate ", " titles))

/-- Python falsiness of a `get_most_famous` result (`False` or `''`). -/
def famousFalsy : Option String → Bool
  | none => true
  | some s => s = ""

/-- The console listing of the Ambiguous branch: candidates whose
`get_most_famous` result is falsy are skipped. -/
def displayFilter (movies : List MovieRow) : List PersonRow → Except String (List PersonRow)
  | [] => .ok []
  | p :: rest => do
    let f ← get_most_famous movies p.famous_movies
    let r ← displayFilter movies rest
    .ok (if famousFalsy f then r else p :: r)

/-- A candidate is shown iff their known-for titles resolve to a
nonempty title list. -/
def displayable (movies : List MovieRow) (p : PersonRow) : Prop :=
  ∃ s, get_most_famous movies p.famous_movies = .ok (some s) ∧ s ≠ ""

/-! ## C6: ordering and display filtering of ambiguous name matches -/

theorem keyLE_trans (a b c : Option Nat)
    (h1 : keyLE a b = true) (h2 : keyLE b c = true) : keyLE a c = true := by
  cases a <;> cases b <;> cases c <;> simp [keyLE] at * <;> omega

theorem keyLE_total (a b : Option Nat) : (keyLE a b || keyLE b a) = true := by
  cases a <;> cases b <;> simp [keyLE] <;> omega

/-- The function `displayFilter` succeeds exactly on the sublist of candidates whose
known-for titles resolve, keeping their order. -/
theorem displayFilter_spec (movies : List MovieRow) :
    ∀ (L l : List PersonRow), displayFilter movies L = .ok l →
      l.Sublist L ∧ (∀ p ∈ L, p ∈ l ↔ displayable movies p) := by
  intro L
  induction L with
  | nil =>
    intro l h
    cases h
    exact ⟨List.Sublist.refl [], fun p hp => absurd hp (List.not_mem_nil p)⟩
  | cons q rest ih =>
    intro l h
    rw [displayFilter] at h
    cases hf : get_most_famous movies q.famous_movies with
    | error e =>
      rw [hf] at h
      cases h
    | ok f =>
      rw [hf] at h
      cases hr : displayFilter movies rest with
      | error e =>
        rw [hr] at h
        cases h
      | ok r =>
        rw [hr] at h
        injection h with hl
        obtain ⟨hsub, hmem⟩ := ih r hr
        have hdisp_iff : displayable movies q ↔ famousFalsy f = false := by
          constructor
          · rintro ⟨s, hs, hsne⟩
            rw [hf] at hs
            injection hs with hs'
            subst hs'
            simpa [famousFalsy] using hsne
          · intro hff
            cases f with
            | none => simp [famousFalsy] at hff
            | some s =>
              refine ⟨s, hf, ?_⟩
              simpa [famousFalsy] using hff
        by_cases hff : famousFalsy f = true
        · rw [if_pos hff] at hl
          subst hl
          refine ⟨hsub.trans (List.sublist_cons_self q rest), ?_⟩
          intro p hp
          rcases List.mem_cons.mp hp with rfl | hpr
          · constructor
            · intro hpl
              exact (hmem p (hsub.mem hpl)).mp hpl
            · intro hd
              rw [hdisp_iff] at hd
              rw [hff] at hd
              cases hd
          · exact hmem p hpr
        · have hff' : famousFalsy f = false := by
            revert hff
            cases famousFalsy f <;> simp
          rw [if_neg (by rw [hff']; exact Bool.false_ne_true)] at hl
          subst hl
          refine ⟨List.Sublist.cons₂ q hsub, ?_⟩
          intro p hp
          rcases List.mem_cons.mp hp with rfl | hpr
          · constructor
            · intro _
              exact hdisp_iff.mpr hff'
            · intro _
              exact List.mem_cons_self _ _
          · by_cases hpq : p = q
            · subst hpq
              constructor
              · intro _
                exact hdisp_iff.mpr hff'
              · intro _
                exact List.mem_cons_self _ _
            · rw [List.mem_cons]
              constructor
              · rintro (h | h)
                · exact absurd h hpq
                · exact (hmem p hpr).mp h
              · intro hd
                exact Or.inr ((hmem p hpr).mpr hd)

/-- C6. When a name search matches several people, the match set is
exactly the people whose name matches the stripped input, ordered
ascending by the length of their known-for text (people without a
known-for text sort last, as PostgreSQL puts `NULL` keys last); the
console listing keeps, in the same order, exactly the matches whose
known-for titles resolve to at least one stored movie, while the
omitted candidates remain in the underlying match set. -/
theorem c6_ambiguous_ordering (people : List PersonRow) (movies : List MovieRow)
    (raw : String) (hmulti : 2 ≤ (check_name_matches people raw).length) :
    (∀ p, p ∈ check_name_matches people raw ↔
      p ∈ people ∧ nameMatches (pyStrip raw) p.name = true)
    ∧ List.Pairwise (fun a b => keyLE (famousLen a) (famousLen b) = true)
        (check_name_matches people raw)
    ∧ ∀ l, displayFilter movies (check_name_matches people raw) = .ok l →
        l.Sublist (check_name_matches people raw)
        ∧ (∀ p ∈ check_name_matches people raw, p ∈ l ↔ displayable movies p)
        ∧ List.Pairwise (fun a b => keyLE (famousLen a) (famousLen b) = true) l := by
  refine ⟨?_, ?_, ?_⟩
  · intro p
    rw [check_name_matches, List.mem_mergeSort, List.mem_filter]
  · exact List.sorted_mergeSort
      (fun a b c => keyLE_trans (famousLen a) (famousLen b) (famousLen c))
      (fun a b => keyLE_total (famousLen a) (famousLen b)) _
  · intro l hl
    obtain ⟨hsub, hmem⟩ := displayFilter_spec movies _ l hl
    refine ⟨hsub, hmem, List.Pairwise.sublist hsub ?_⟩
    exact List.sorted_mergeSort
      (fun a b c => keyLE_trans (famousLen a) (famousLen b) (famousLen c))
      (fun a b => keyLE_total (famousLen a) (famousLen b)) _

def c6Movies : List MovieRow :=
  [{ id := 1, title := "Alpha", year := none, title_type := none,
     is_adult := none, runtime := none, genres := none },
   { id := 2, title := "Beta", year := none, title_type := none,
     is_adult := none, runtime := none, genres := none }]

def c6People : List PersonRow :=
  [{ id := 11, name := "John Big", birth := none, death := none,
     famous_movies := some "tt0000001,tt0000002" },
   { id := 12, name := "John None", birth := none, death := none,
     famous_movies := none },
   { id := 13, name := "John Small", birth := none, death := none,
     famous_movies := some "tt0000001" },
   { id := 14, name := "John Ghost", birth := none, death := none,
     famous_movies := some "tt0000009" },
   { id := 15, name := "Mary Major", birth := none, death := none,
     famous_movies := some "tt0000001" }]

/-- Witness for C6: searching `"  john "` matches four people; the
match set is ordered by known-for length with the `NULL` known-for
candidate last, and the display filter drops the `NULL` and
unresolvable candidates while both remain in the match set. -/
theorem c6_ambiguous_ordering_witness :
    2 ≤ (check_name_matches c6People "  john ").length
    ∧ (∀ p, p ∈ check_name_matches c6People "  john " ↔
        p ∈ c6People ∧ nameMatches (pyStrip "  john ") p.name = true)
    ∧ List.Pairwise (fun a b => keyLE (famousLen a) (famousLen b) = true)
        (check_name_matches c6People "  john ")
    ∧ ∀ l, displayFilter c6Movies (check_name_matches c6People "  john ") = .ok l →
        l.Sublist (check_name_matches c6People "  john ")
        ∧ (∀ p ∈ check_name_matches c6People "  john ", p ∈ l ↔ displayable c6Movies p)
        ∧ List.Pairwise (fun a b => keyLE (famousLen a) (famousLen b) = true) l := by
  have hlen : 2 ≤ (check_name_matches c6People "  john ").length := by
    rw [check_name_matches, List.length_mergeSort]
    decide
  obtain ⟨h1, h2, h3⟩ := c6_ambiguous_ordering c6People c6Movies "  john " hlen
  exact ⟨hlen, h1, h2, h3⟩
